import Mathlib

/-!
Shallow embedding of the dracin-api server (`src/server.js`, heuristic-scraper
variant): the extraction pipeline `scrapeDeeperData`, its per-candidate field
extraction, URL normalization, Map-based deduplication, and the three cache
handlers for `/api/dramas` and `/api/search`.

JavaScript strings are modelled as Lean `String`; the JS string operations the
code uses (`trim`, `toLowerCase`, `startsWith`, `includes`, `||` on strings)
are given explicit list-of-characters models below.  Cheerio lookups on a
candidate element are modelled by an `Element` structure holding the result of
each individual query the code performs (empty string standing for a missing
attribute, which the code only ever consumes through truthiness checks).
-/

namespace DracinApi

/-- `TARGET_URL` constant from server.js. -/
def TARGET_URL : String := "https://deeper.id"

/-- `CACHE_DURATION = 10 * 60 * 1000` milliseconds from server.js. -/
def CACHE_DURATION : Nat := 10 * 60 * 1000

/-- JS `a || b` for strings: the empty string is falsy. -/
def jsOr (a b : String) : String := if a = "" then b else a

/-- JS `String.prototype.toLowerCase`, character-wise. -/
def jsToLower (s : String) : String := ⟨s.data.map Char.toLower⟩

/-- Character-list prefix test (model of JS `startsWith` on the char level). -/
def isPrefixOfCh : List Char → List Char → Bool
  | [], _ => true
  | _ :: _, [] => false
  | a :: as, b :: bs => a == b && isPrefixOfCh as bs

/-- Character-list infix test: `p` occurs contiguously in `l`. -/
def isInfixOfCh (p l : List Char) : Bool :=
  match l with
  | [] => isPrefixOfCh p []
  | _ :: rest => isPrefixOfCh p l || isInfixOfCh p rest

/-- JS `s.startsWith(pre)`. -/
def jsStartsWith (s pre : String) : Bool := isPrefixOfCh pre.data s.data

/-- JS `s.includes(pat)`. -/
def jsIncludes (s pat : String) : Bool := isInfixOfCh pat.data s.data

/-- JS `s.trim()`: strip leading and trailing whitespace. -/
def jsTrim (s : String) : String :=
  ⟨((s.data.dropWhile Char.isWhitespace).reverse.dropWhile Char.isWhitespace).reverse⟩

/-- One candidate element, as seen through the cheerio queries the scraper
performs on it.  Each field is the raw result of the corresponding lookup in
server.js; an absent attribute is the empty string (the code only consumes
these values through JS truthiness, where `undefined` and `""` coincide). -/
structure Element where
  /-- `el.attr('title')` -/
  attrTitle : String
  /-- `el.find('img').attr('alt')` -/
  imgAlt : String
  /-- `el.find('h1, h2, h3, h4, .title, .name').text()` (before `.trim()`) -/
  headingText : String
  /-- `el.text()` (before `.trim()`) -/
  ownText : String
  /-- `el.attr('href')` -/
  attrHref : String
  /-- `el.find('a').attr('href')` -/
  childAHref : String
  /-- `el.find('.episode, .ep, .status, span:contains("Ep"), .badge').text()` -/
  episodeText : String
  /-- `el.find('img').attr('src')` -/
  imgSrc : String
  /-- `el.find('img').attr('data-src')` -/
  imgDataSrc : String
deriving DecidableEq

/-- One assembled drama record, as pushed into `dramas` in server.js. -/
structure Record where
  id : Nat
  title : String
  episodes : String
  genres : List String
  summary : String
  image : Option String
  url : String
deriving DecidableEq

/-- Title fallback chain:
`el.attr('title') || el.find('img').attr('alt') || el.find('h1,h2,h3,h4,.title,.name').text().trim() || el.text().trim()`. -/
def extractTitle (el : Element) : String :=
  jsOr el.attrTitle (jsOr el.imgAlt (jsOr (jsTrim el.headingText) (jsTrim el.ownText)))

/-- Link fallback chain: `el.attr('href') || el.find('a').attr('href')`. -/
def extractLink (el : Element) : String := jsOr el.attrHref el.childAHref

/-- Episode extraction: text of the status-marker descendants, trimmed. -/
def extractEpisodes (el : Element) : String := jsTrim el.episodeText

/-- Image fallback chain: `el.find('img').attr('src') || el.find('img').attr('data-src')`. -/
def extractImage (el : Element) : String := jsOr el.imgSrc el.imgDataSrc

/-- Link cleanup from server.js:
`if (link && !link.startsWith('http')) link = link.startsWith('/') ? TARGET_URL + link : TARGET_URL + '/' + link`. -/
def normalizeLink (link : String) : String :=
  if link != "" && !(jsStartsWith link "http") then
    if jsStartsWith link "/" then TARGET_URL ++ link else TARGET_URL ++ "/" ++ link
  else link

/-- Image cleanup from server.js:
`if (image && !image.startsWith('http')) image = image.startsWith('//') ? 'https:' + image : image`. -/
def normalizeImage (image : String) : String :=
  if image != "" && !(jsStartsWith image "http") then
    if jsStartsWith image "//" then "https:" ++ image else image
  else image

/-- One iteration of the `items.each` loop: extract fields from the candidate
at 0-based position `index`, apply the validity filter
`title && title.length > 2 && link && !title.toLowerCase().includes("home")`,
and on success build the record that is pushed onto `dramas`. -/
def assembleOne (index : Nat) (el : Element) : Option Record :=
  let title := extractTitle el
  let link := extractLink el
  let episodes := extractEpisodes el
  let image := extractImage el
  if title != "" && decide (title.length > 2) && link != "" &&
      !(jsIncludes (jsToLower title) "home") then
    some
      { id := index + 1
        title := title
        episodes := jsOr episodes "Unknown"
        genres := ["Drama"]
        summary := "Lihat detail di link asli."
        image := if normalizeImage image = "" then none else some (normalizeImage image)
        url := normalizeLink link }
  else none

/-- The whole `items.each((index, element) => ...)` loop: the candidate index
increments on every candidate, whether or not it yields a record. -/
def assembleAll (index : Nat) : List Element → List Record
  | [] => []
  | el :: rest =>
    match assembleOne index el with
    | some r => r :: assembleAll (index + 1) rest
    | none => assembleAll (index + 1) rest

/-- JS `Map.prototype.set` on an association list: if the key is present, the
stored value is replaced in place (insertion order preserved); otherwise the
pair is appended at the end. -/
def mapSet (m : List (String × Record)) (k : String) (v : Record) :
    List (String × Record) :=
  match m with
  | [] => [(k, v)]
  | (k', v') :: rest => if k' = k then (k', v) :: rest else (k', v') :: mapSet rest k v

/-- `Array.from(new Map(dramas.map(item => [item['url'], item])).values())`:
build a JS Map keyed on `url` and take its values in insertion order. -/
def dedupByUrl (l : List Record) : List Record :=
  (l.foldl (fun m item => mapSet m item.url item) []).map Prod.snd

/-- `scrapeDeeperData`, from the candidate list onwards: the fetch and the
candidate selection are external collaborators, so the pipeline is modelled
from the ordered candidate element list the selector produced. -/
def scrapeDeeperData (items : List Element) : List Record :=
  dedupByUrl (assembleAll 0 items)

/-- The first-occurrence order of a list of keys: each key appears exactly
once, at the position where it first occurs in the input.  This is the key
order a JS Map ends up with after inserting the list left to right, used to
state what `dedupByUrl` does to record order. -/
def dedupKeysFirst : List String → List String
  | [] => []
  | u :: rest => u :: (dedupKeysFirst rest).filter (fun v => v != u)

/-- The module-level cache state: `let cachedData = null; let lastFetchTime = 0`. -/
structure CacheState where
  cachedData : Option (List Record)
  lastFetchTime : Nat
deriving DecidableEq

/-- The JSON body (plus HTTP status code) a handler sends.  Fields that a
given response shape does not set are `none`. -/
structure ApiResponse where
  statusCode : Nat
  status : String
  source : Option String := none
  message : Option String := none
  error_detail : Option String := none
  cached_at : Option Nat := none
  total : Option Nat := none
  query : Option String := none
  total_found : Option Nat := none
  data : Option (List Record) := none
deriving DecidableEq

/-- The observable outcome of one handler invocation: the response sent, the
cache state left behind, and whether `scrapeDeeperData` was invoked. -/
structure HandlerResult where
  response : ApiResponse
  state : CacheState
  ranPipeline : Bool
deriving DecidableEq

/-- The `try`/`catch` refresh half of the `/api/dramas` handler: run the
pipeline (its outcome is the `scrape` argument); on success overwrite the
cache and answer `live_scraping`; on failure answer the stale cache as
`old_cache` when one exists, else a 500 error. -/
def dramasRefresh (st : CacheState) (now : Nat)
    (scrape : Except String (List Record)) : HandlerResult :=
  match scrape with
  | .ok freshData =>
      { response :=
          { statusCode := 200, status := "success", source := some "live_scraping"
            total := some freshData.length, data := some freshData }
        state := { cachedData := some freshData, lastFetchTime := now }
        ranPipeline := true }
  | .error msg =>
      match st.cachedData with
      | some d =>
          { response :=
              { statusCode := 200, status := "warning"
                message := some "Gagal refresh data, menampilkan data cache terakhir."
                error_detail := some msg, source := some "old_cache", data := some d }
            state := st
            ranPipeline := true }
      | none =>
          { response := { statusCode := 500, status := "error", message := some msg }
            state := st
            ranPipeline := true }

/-- The `/api/dramas` handler.  `now` is `Date.now()`; `scrape` is the outcome
the external pipeline run would have (it is consulted only if the handler
actually runs the pipeline, as witnessed by `ranPipeline`).  The freshness
test is `cachedData && (currentTime - lastFetchTime < CACHE_DURATION)`. -/
def dramasHandler (st : CacheState) (now : Nat)
    (scrape : Except String (List Record)) : HandlerResult :=
  match st.cachedData with
  | some d =>
      if (now : Int) - (st.lastFetchTime : Int) < (CACHE_DURATION : Int) then
        { response :=
            { statusCode := 200, status := "success", source := some "cache"
              cached_at := some st.lastFetchTime, total := some d.length
              data := some d }
          state := st
          ranPipeline := false }
      else dramasRefresh st now scrape
  | none => dramasRefresh st now scrape

/-- The success body of `/api/search`. -/
def searchSuccess (query : String) (filtered : List Record) : ApiResponse :=
  { statusCode := 200, status := "success", query := some query
    total_found := some filtered.length, data := some filtered }

/-- The `/api/search` handler.  `q` is `req.query.q` (`none` when absent);
the query string is lowercased (`req.query.q ? req.query.q.toLowerCase() : ''`),
the cache is consulted without any freshness test, the pipeline runs only when
`cachedData` is null, and records are kept when the lowercased title contains
the query. -/
def searchHandler (st : CacheState) (now : Nat) (q : Option String)
    (scrape : Except String (List Record)) : HandlerResult :=
  let query : String :=
    match q with
    | some s => if s != "" then jsToLower s else ""
    | none => ""
  match st.cachedData with
  | some d =>
      { response := searchSuccess query (d.filter fun r => jsIncludes (jsToLower r.title) query)
        state := st
        ranPipeline := false }
  | none =>
      match scrape with
      | .ok freshData =>
          { response :=
              searchSuccess query
                (freshData.filter fun r => jsIncludes (jsToLower r.title) query)
            state := { cachedData := some freshData, lastFetchTime := now }
            ranPipeline := true }
      | .error msg =>
          { response := { statusCode := 500, status := "error", message := some msg }
            state := st
            ranPipeline := true }

end DracinApi

namespace DracinApi

/-- A minimal candidate element carrying only an own `title` attribute and an
own `href` attribute, used as concrete test input. -/
def mkEl (t l : String) : Element :=
  { attrTitle := t, imgAlt := "", headingText := "", ownText := "", attrHref := l
    childAHref := "", episodeText := "", imgSrc := "", imgDataSrc := "" }

def elAlpha : Element := mkEl "Alpha" "https://u.example/a"
def elBeta : Element := mkEl "Beta" "https://u.example/a"
def elGamma : Element := mkEl "Gamma" "https://v.example/c"

def recAlpha : Record :=
  { id := 1, title := "Alpha", episodes := "Unknown", genres := ["Drama"]
    summary := "Lihat detail di link asli.", image := none, url := "https://u.example/a" }

def recBeta : Record :=
  { id := 2, title := "Beta", episodes := "Unknown", genres := ["Drama"]
    summary := "Lihat detail di link asli.", image := none, url := "https://u.example/a" }

def recGamma : Record :=
  { id := 3, title := "Gamma", episodes := "Unknown", genres := ["Drama"]
    summary := "Lihat detail di link asli.", image := none, url := "https://v.example/c" }

def elShort : Element := mkEl "ab" "https://x.example/1"
def elValid : Element := mkEl "Valid" "https://x.example/2"

def recValid : Record :=
  { id := 2, title := "Valid", episodes := "Unknown", genres := ["Drama"]
    summary := "Lihat detail di link asli.", image := none, url := "https://x.example/2" }

lemma jsToLower_empty : jsToLower "" = "" := rfl

lemma jsIncludes_empty (s : String) : jsIncludes s "" = true := by
  unfold jsIncludes
  cases s.data with
  | nil => rfl
  | cons c rest => simp [isInfixOfCh, isPrefixOfCh]

lemma mem_mapSet {p : String × Record} {m : List (String × Record)} {k : String}
    {v : Record} (hp : p ∈ mapSet m k v) : p ∈ m ∨ p = (k, v) := by
  induction m with
  | nil =>
      simp [mapSet] at hp
      exact Or.inr hp
  | cons q rest ih =>
      obtain ⟨k', v'⟩ := q
      by_cases hk : k' = k
      · subst hk
        simp [mapSet] at hp
        rcases hp with hp | hp
        · exact Or.inr (by simp [hp])
        · exact Or.inl (List.mem_cons_of_mem _ hp)
      · simp [mapSet, hk] at hp
        rcases hp with hp | hp
        · exact Or.inl (by simp [hp])
        · rcases ih hp with h | h
          · exact Or.inl (List.mem_cons_of_mem _ h)
          · exact Or.inr h

lemma mapSet_keysDistinct {m : List (String × Record)} {k : String} {v : Record}
    (h : m.Pairwise (fun p q => p.1 ≠ q.1)) :
    (mapSet m k v).Pairwise (fun p q => p.1 ≠ q.1) := by
  induction m with
  | nil => simp [mapSet]
  | cons q rest ih =>
      obtain ⟨k', v'⟩ := q
      rw [List.pairwise_cons] at h
      by_cases hk : k' = k
      · subst hk
        simp only [mapSet, if_pos rfl]
        exact List.pairwise_cons.mpr ⟨h.1, h.2⟩
      · simp only [mapSet, if_neg hk]
        refine List.pairwise_cons.mpr ⟨?_, ih h.2⟩
        intro p hp
        rcases mem_mapSet hp with hmem | rfl
        · exact h.1 p hmem
        · exact hk

lemma mapSet_urlInv {m : List (String × Record)} {k : String} {v : Record}
    (h : ∀ p ∈ m, (p : String × Record).2.url = p.1) (hv : v.url = k) :
    ∀ p ∈ mapSet m k v, (p : String × Record).2.url = p.1 := by
  intro p hp
  rcases mem_mapSet hp with hmem | rfl
  · exact h p hmem
  · exact hv

lemma foldl_mapSet_inv (l : List Record) (m : List (String × Record))
    (hk : m.Pairwise (fun p q => p.1 ≠ q.1))
    (hu : ∀ p ∈ m, (p : String × Record).2.url = p.1) :
    (l.foldl (fun m item => mapSet m item.url item) m).Pairwise (fun p q => p.1 ≠ q.1) ∧
    ∀ p ∈ l.foldl (fun m item => mapSet m item.url item) m,
      (p : String × Record).2.url = p.1 := by
  induction l generalizing m with
  | nil => exact ⟨hk, hu⟩
  | cons r rest ih =>
      exact ih (mapSet m r.url r) (mapSet_keysDistinct hk) (mapSet_urlInv hu rfl)

lemma pairwise_snd_url {m : List (String × Record)}
    (hk : m.Pairwise (fun p q => p.1 ≠ q.1))
    (hu : ∀ p ∈ m, (p : String × Record).2.url = p.1) :
    m.Pairwise (fun p q => p.2.url ≠ q.2.url) := by
  induction m with
  | nil => exact List.Pairwise.nil
  | cons q rest ih =>
      rw [List.pairwise_cons] at hk ⊢
      refine ⟨?_, ih hk.2 (fun p hp => hu p (List.mem_cons_of_mem _ hp))⟩
      intro p hp
      rw [hu q (List.mem_cons_self _ _), hu p (List.mem_cons_of_mem _ hp)]
      exact hk.1 p hp

lemma dedupByUrl_pairwise (l : List Record) :
    (dedupByUrl l).Pairwise (fun a b => a.url ≠ b.url) := by
  unfold dedupByUrl
  have h := foldl_mapSet_inv l [] List.Pairwise.nil (by intro p hp; cases hp)
  rw [List.pairwise_map]
  exact pairwise_snd_url h.1 h.2

lemma foldl_mapSet_mem {p : String × Record} (l : List Record)
    (m : List (String × Record))
    (hp : p ∈ l.foldl (fun m item => mapSet m item.url item) m) :
    p ∈ m ∨ ∃ it ∈ l, p = (it.url, it) := by
  induction l generalizing m with
  | nil => exact Or.inl hp
  | cons r rest ih =>
      rcases ih (mapSet m r.url r) hp with h | h
      · rcases mem_mapSet h with h' | h'
        · exact Or.inl h'
        · exact Or.inr ⟨r, List.mem_cons_self _ _, h'⟩
      · obtain ⟨it, hit, he⟩ := h
        exact Or.inr ⟨it, List.mem_cons_of_mem _ hit, he⟩

lemma mem_of_mem_dedupByUrl {r : Record} {l : List Record}
    (hr : r ∈ dedupByUrl l) : r ∈ l := by
  unfold dedupByUrl at hr
  obtain ⟨p, hp, hpr⟩ := List.mem_map.mp hr
  rcases foldl_mapSet_mem l [] hp with h | h
  · cases h
  · obtain ⟨it, hit, he⟩ := h
    subst he
    exact (show it = r from hpr) ▸ hit

lemma assembleOne_id {i : Nat} {el : Element} {r : Record}
    (h : assembleOne i el = some r) : r.id = i + 1 := by
  unfold assembleOne at h
  dsimp only at h
  split at h
  · cases h
    rfl
  · cases h

lemma mem_assembleAll {r : Record} (items : List Element) (n : Nat)
    (hr : r ∈ assembleAll n items) :
    ∃ j el, items[j]? = some el ∧ assembleOne (n + j) el = some r := by
  induction items generalizing n with
  | nil => cases hr
  | cons el rest ih =>
      unfold assembleAll at hr
      rcases hres : assembleOne n el with _ | r'
      · rw [hres] at hr
        obtain ⟨j, el', hel, ha⟩ := ih (n + 1) hr
        refine ⟨j + 1, el', by simpa using hel, ?_⟩
        have he : n + (j + 1) = n + 1 + j := by omega
        rw [he]
        exact ha
      · rw [hres] at hr
        rcases List.mem_cons.mp hr with rfl | hr'
        · exact ⟨0, el, by simp, by simpa using hres⟩
        · obtain ⟨j, el', hel, ha⟩ := ih (n + 1) hr'
          refine ⟨j + 1, el', by simpa using hel, ?_⟩
          have he : n + (j + 1) = n + 1 + j := by omega
          rw [he]
          exact ha

lemma mem_dedupKeysFirst {v : String} {xs : List String} :
    v ∈ dedupKeysFirst xs ↔ v ∈ xs := by
  induction xs with
  | nil => simp [dedupKeysFirst]
  | cons u rest ih =>
      by_cases h : v = u
      · simp [dedupKeysFirst, h]
      · simp [dedupKeysFirst, List.mem_filter, ih, h]

lemma dedupKeysFirst_concat (xs : List String) (u : String) :
    dedupKeysFirst (xs ++ [u]) =
      if u ∈ xs then dedupKeysFirst xs else dedupKeysFirst xs ++ [u] := by
  induction xs with
  | nil => simp [dedupKeysFirst]
  | cons w rest ih =>
      rw [List.cons_append,
        show dedupKeysFirst (w :: (rest ++ [u]))
          = w :: (dedupKeysFirst (rest ++ [u])).filter (fun v => v != w) from rfl,
        ih]
      by_cases hmem : u ∈ rest
      · rw [if_pos hmem, if_pos (List.mem_cons_of_mem _ hmem)]
        rfl
      · rw [if_neg hmem]
        by_cases hw : u = w
        · subst hw
          rw [if_pos (List.mem_cons_self _ _), List.filter_append]
          simp [dedupKeysFirst]
        · rw [if_neg (by simp [hw, hmem]), List.filter_append]
          simp [dedupKeysFirst, hw]

lemma mapSet_keys (m : List (String × Record)) (k : String) (v : Record) :
    (mapSet m k v).map Prod.fst =
      if k ∈ m.map Prod.fst then m.map Prod.fst else m.map Prod.fst ++ [k] := by
  induction m with
  | nil => simp [mapSet]
  | cons q rest ih =>
      obtain ⟨k', v'⟩ := q
      by_cases hk : k' = k
      · subst hk
        simp [mapSet]
      · simp only [mapSet, if_neg hk, List.map_cons, ih]
        by_cases hmem : k ∈ rest.map Prod.fst
        · simp [hmem, Ne.symm hk]
        · simp [hmem, Ne.symm hk]

lemma finalMap_keys (l : List Record) :
    ((l.foldl (fun m item => mapSet m item.url item) []).map Prod.fst)
      = dedupKeysFirst (l.map Record.url) := by
  induction l using List.reverseRecOn with
  | nil => rfl
  | append_singleton l r ih =>
      rw [List.foldl_append, List.foldl_cons, List.foldl_nil, mapSet_keys, ih,
        List.map_append, List.map_cons, List.map_nil, dedupKeysFirst_concat]
      by_cases hmem : r.url ∈ l.map Record.url
      · rw [if_pos (mem_dedupKeysFirst.mpr hmem), if_pos hmem]
      · rw [if_neg (fun h => hmem (mem_dedupKeysFirst.mp h)), if_neg hmem]

lemma mem_mapSet_decomp {p : String × Record} {m : List (String × Record)}
    {k : String} {v : Record}
    (hk : m.Pairwise (fun p q => p.1 ≠ q.1)) (hp : p ∈ mapSet m k v) :
    p = (k, v) ∨ (p ∈ m ∧ p.1 ≠ k) := by
  induction m with
  | nil =>
      simp [mapSet] at hp
      exact Or.inl hp
  | cons q rest ih =>
      obtain ⟨k', v'⟩ := q
      rw [List.pairwise_cons] at hk
      by_cases hkk : k' = k
      · subst hkk
        simp only [mapSet, if_pos rfl, eq_self_iff_true, if_true, List.mem_cons] at hp
        rcases hp with h | hp
        · exact Or.inl h
        · exact Or.inr ⟨List.mem_cons_of_mem _ hp, fun he => hk.1 p hp he.symm⟩
      · simp only [mapSet, if_neg hkk, List.mem_cons] at hp
        rcases hp with h | hp
        · refine Or.inr ⟨?_, ?_⟩
          · rw [h]
            exact List.mem_cons_self _ _
          · rw [h]
            exact hkk
        · rcases ih hk.2 hp with h | ⟨hm, hne⟩
          · exact Or.inl h
          · exact Or.inr ⟨List.mem_cons_of_mem _ hm, hne⟩

lemma finalMap_lastValue (l : List Record) :
    ∀ p ∈ l.foldl (fun m item => mapSet m item.url item) [],
      (l.filter (fun x => x.url == p.1)).getLast? = some p.2 := by
  induction l using List.reverseRecOn with
  | nil =>
      intro p hp
      cases hp
  | append_singleton l r ih =>
      intro p hp
      rw [List.foldl_append, List.foldl_cons, List.foldl_nil] at hp
      have hk := (foldl_mapSet_inv l [] List.Pairwise.nil (by intro q hq; cases hq)).1
      rcases mem_mapSet_decomp hk hp with rfl | ⟨hpm, hne⟩
      · rw [List.filter_append]
        simp
      · rw [List.filter_append,
          show List.filter (fun x => x.url == p.1) [r] = [] by simp [Ne.symm hne],
          List.append_nil]
        exact ih p hpm

end DracinApi

namespace DracinApi

/-- Claim C4: within one extraction run, the normalized `url` is unique
across the returned record set — any two records at distinct positions of
`scrapeDeeperData`'s result have different `url` values. -/
theorem scrape_url_unique (items : List Element) :
    (scrapeDeeperData items).Pairwise (fun a b => a.url ≠ b.url) := by
  unfold scrapeDeeperData
  exact dedupByUrl_pairwise _

/-- Counterexample to claim C2: for candidates Alpha and Beta sharing one url
and Gamma with another, the run returns the record assembled from Beta (the
latest duplicate), not from Alpha (the earliest): the claimed output
`[recAlpha, recGamma]` is not what the pipeline produces, and Alpha's record
is not in the output at all. -/
theorem dedup_first_wins_cex :
    assembleOne 0 elAlpha = some recAlpha ∧
    assembleOne 2 elGamma = some recGamma ∧
    recAlpha ∉ scrapeDeeperData [elAlpha, elBeta, elGamma] ∧
    scrapeDeeperData [elAlpha, elBeta, elGamma] ≠ [recAlpha, recGamma] := by
  refine ⟨by decide, by decide, by decide, by decide⟩

/-- Claim C2 (amended): deduplication keeps the position of the first
occurrence of a url but stores the record of the latest occurrence — in
every extraction run, the returned list's urls are the assembled records'
urls in first-occurrence order, every returned record is the last assembled
record bearing its url, and in particular for assembled records
`[a(url=u), b(url=u), c(url=v)]` the deduplicated list is `[b, c]`. -/
theorem dedup_last_wins (items : List Element) :
    ((scrapeDeeperData items).map Record.url
        = dedupKeysFirst ((assembleAll 0 items).map Record.url)) ∧
    (∀ r ∈ scrapeDeeperData items,
      ((assembleAll 0 items).filter (fun x => x.url == r.url)).getLast? = some r) ∧
    (∀ a b c : Record, a.url = b.url → b.url ≠ c.url →
      dedupByUrl [a, b, c] = [b, c]) := by
  have hinv := (foldl_mapSet_inv (assembleAll 0 items) [] List.Pairwise.nil
    (by intro q hq; cases hq)).2
  refine ⟨?_, ?_, ?_⟩
  · unfold scrapeDeeperData dedupByUrl
    rw [List.map_map,
      List.map_congr_left (fun p hp => show (Record.url ∘ Prod.snd) p = Prod.fst p
        from hinv p hp),
      finalMap_keys]
  · intro r hr
    unfold scrapeDeeperData dedupByUrl at hr
    obtain ⟨p, hp, hpr⟩ := List.mem_map.mp hr
    have hurl : r.url = p.1 := by
      rw [← hpr]
      exact hinv p hp
    rw [hurl, ← hpr]
    exact finalMap_lastValue _ p hp
  · intro a b c hab hbc
    have hac : a.url ≠ c.url := hab ▸ hbc
    unfold dedupByUrl
    simp only [List.foldl, mapSet, if_pos hab, if_neg hac, List.map]

/-- Witness for `dedup_last_wins` at the concrete Alpha/Beta/Gamma run: the
record stored for the duplicated url is Beta, the last assembled record with
that url, and the deduplicated list is `[recBeta, recGamma]`. -/
theorem dedup_last_wins_witness :
    (scrapeDeeperData [elAlpha, elBeta, elGamma]).map Record.url
        = dedupKeysFirst ((assembleAll 0 [elAlpha, elBeta, elGamma]).map Record.url) ∧
    ((assembleAll 0 [elAlpha, elBeta, elGamma]).filter
        (fun x => x.url == recBeta.url)).getLast? = some recBeta ∧
    dedupByUrl [recAlpha, recBeta, recGamma] = [recBeta, recGamma] :=
  ⟨(dedup_last_wins [elAlpha, elBeta, elGamma]).1,
   (dedup_last_wins [elAlpha, elBeta, elGamma]).2.1 recBeta (by decide),
   (dedup_last_wins [elAlpha, elBeta, elGamma]).2.2 recAlpha recBeta recGamma
     (by decide) (by decide)⟩

/-- Counterexample to claim C9: a run whose first candidate is filtered out
(two-character title) returns a single record whose `id` is 2, not the
1-based position 1 in the returned list. -/
theorem record_id_position_cex :
    (scrapeDeeperData [elShort, elValid]).map Record.id = [2] ∧
    (scrapeDeeperData [elShort, elValid]).length = 1 ∧
    (scrapeDeeperData [elShort, elValid]).map Record.id ≠ [1] := by
  refine ⟨by decide, by decide, by decide⟩

/-- Claim C9 (amended): each returned record's `id` is one plus the 0-based
index of the candidate element that produced it in that run's candidate list
(the `each` index), which need not be its position in the returned list. -/
theorem record_id_is_candidate_index (items : List Element) (r : Record)
    (hr : r ∈ scrapeDeeperData items) :
    ∃ i el, items[i]? = some el ∧ assembleOne i el = some r ∧ r.id = i + 1 := by
  have hmem := mem_of_mem_dedupByUrl (by unfold scrapeDeeperData at hr; exact hr)
  obtain ⟨j, el, hel, ha⟩ := mem_assembleAll items 0 hmem
  rw [Nat.zero_add] at ha
  exact ⟨j, el, hel, ha, assembleOne_id ha⟩

/-- Witness for `record_id_is_candidate_index` at the concrete run whose
first candidate is filtered out. -/
theorem record_id_is_candidate_index_witness :
    recValid ∈ scrapeDeeperData [elShort, elValid] ∧
    ∃ i el, [elShort, elValid][i]? = some el ∧
      assembleOne i el = some recValid ∧ recValid.id = i + 1 :=
  ⟨by decide, record_id_is_candidate_index [elShort, elValid] recValid (by decide)⟩

/-- Counterexample to claim C5: the link `"ftp://a"` starts with the scheme
`ftp:` yet is not kept unchanged — the code only recognizes the literal
prefix `"http"`. -/
theorem normalizeLink_scheme_cex :
    normalizeLink "ftp://a" = "https://deeper.id/ftp://a" ∧
    normalizeLink "ftp://a" ≠ "ftp://a" := by
  refine ⟨by decide, by decide⟩

/-- Claim C5 (amended): a non-empty link is kept unchanged exactly when it
starts with the literal prefix `"http"`; otherwise it is joined to the base
origin, inserting a separating slash only when the link does not already
start with one; in particular `"/x"` and `"x"` both normalize to
`"https://deeper.id/x"`. -/
theorem normalizeLink_spec (link : String) (hne : link ≠ "") :
    (jsStartsWith link "http" = true → normalizeLink link = link) ∧
    (jsStartsWith link "http" = false → jsStartsWith link "/" = true →
      normalizeLink link = TARGET_URL ++ link) ∧
    (jsStartsWith link "http" = false → jsStartsWith link "/" = false →
      normalizeLink link = TARGET_URL ++ "/" ++ link) ∧
    normalizeLink "/x" = "https://deeper.id/x" ∧
    normalizeLink "x" = "https://deeper.id/x" := by
  refine ⟨?_, ?_, ?_, by decide, by decide⟩
  · intro h
    simp [normalizeLink, h]
  · intro h h'
    simp [normalizeLink, h, h', hne]
  · intro h h'
    simp [normalizeLink, h, h', hne]

/-- Witness for `normalizeLink_spec` at the three concrete links of the
claim plus a no-op absolute link. -/
theorem normalizeLink_spec_witness :
    ("/x" : String) ≠ "" ∧
    normalizeLink "/x" = "https://deeper.id/x" ∧
    normalizeLink "x" = "https://deeper.id/x" ∧
    normalizeLink "https://deeper.id/p" = "https://deeper.id/p" :=
  ⟨by decide, (normalizeLink_spec "/x" (by decide)).2.2.2.1,
    (normalizeLink_spec "x" (by decide)).2.2.2.2,
    (normalizeLink_spec "https://deeper.id/p" (by decide)).1 (by decide)⟩

/-- Counterexample to claim C6: the relative image URL `"/y.jpg"` is not
resolved against the base origin — it is returned unchanged, still
relative. -/
theorem normalizeImage_relative_cex :
    normalizeImage "/y.jpg" = "/y.jpg" ∧
    normalizeImage "/y.jpg" ≠ "https://deeper.id/y.jpg" := by
  refine ⟨by decide, by decide⟩

/-- Claim C6 (amended): an image URL starting with `"http"` is kept
unchanged; a protocol-relative one (starting with `"//"`) is completed by
prefixing `"https:"`; every other image URL is kept as-is (relative image
URLs are NOT resolved against the base origin); in particular
`"//cdn.example/y.jpg"` normalizes to `"https://cdn.example/y.jpg"`. -/
theorem normalizeImage_spec (image : String) (hne : image ≠ "") :
    (jsStartsWith image "http" = true → normalizeImage image = image) ∧
    (jsStartsWith image "http" = false → jsStartsWith image "//" = true →
      normalizeImage image = "https:" ++ image) ∧
    (jsStartsWith image "http" = false → jsStartsWith image "//" = false →
      normalizeImage image = image) ∧
    normalizeImage "//cdn.example/y.jpg" = "https://cdn.example/y.jpg" := by
  refine ⟨?_, ?_, ?_, by decide⟩
  · intro h
    simp [normalizeImage, h]
  · intro h h'
    simp [normalizeImage, h, h', hne]
  · intro h h'
    simp [normalizeImage, h, h', hne]

/-- Witness for `normalizeImage_spec` at the concrete protocol-relative,
absolute, and plain-relative image URLs. -/
theorem normalizeImage_spec_witness :
    normalizeImage "//cdn.example/y.jpg" = "https://cdn.example/y.jpg" ∧
    normalizeImage "https://cdn.example/z.jpg" = "https://cdn.example/z.jpg" ∧
    normalizeImage "img/z.jpg" = "img/z.jpg" :=
  ⟨(normalizeImage_spec "//cdn.example/y.jpg" (by decide)).2.2.2,
    (normalizeImage_spec "https://cdn.example/z.jpg" (by decide)).1 (by decide),
    (normalizeImage_spec "img/z.jpg" (by decide)).2.2.1 (by decide) (by decide)⟩

end DracinApi

namespace DracinApi

/-- Claim C1: with a populated cache past its TTL and a failing pipeline run,
`/api/dramas` answers HTTP 200 with status `warning`, source `old_cache`, the
previously cached records unchanged and the failure reason in
`error_detail`, and leaves the cache state (records and timestamp)
untouched. -/
theorem dramas_stale_fallback (st : CacheState) (now : Nat) (d : List Record)
    (msg : String) (hc : st.cachedData = some d)
    (hstale : (CACHE_DURATION : Int) ≤ (now : Int) - (st.lastFetchTime : Int)) :
    dramasHandler st now (Except.error msg) =
      ⟨{ statusCode := 200, status := "warning"
         message := some "Gagal refresh data, menampilkan data cache terakhir."
         error_detail := some msg, source := some "old_cache", data := some d }
       , st, true⟩ := by
  simp [dramasHandler, dramasRefresh, hc, if_neg (not_lt.mpr hstale)]

/-- Witness for `dramas_stale_fallback` at a one-record cache fetched at 0,
read at exactly the TTL with a failing pipeline. -/
theorem dramas_stale_fallback_witness :
    dramasHandler ⟨some [recAlpha], 0⟩ 600000 (Except.error "fail") =
      ⟨{ statusCode := 200, status := "warning"
         message := some "Gagal refresh data, menampilkan data cache terakhir."
         error_detail := some "fail", source := some "old_cache"
         data := some [recAlpha] }
       , ⟨some [recAlpha], 0⟩, true⟩ :=
  dramas_stale_fallback ⟨some [recAlpha], 0⟩ 600000 [recAlpha] "fail" rfl (by decide)

/-- Claim C3: the TTL is 10 minutes; a populated cache younger than the TTL
is served as `cache` verbatim with no pipeline run and no state change; once
`now - fetchedAt` reaches the TTL the handler runs the pipeline, and on
success serves the fresh records as `live_scraping`, overwriting the cache
with them and the new timestamp. -/
theorem dramas_freshness_gate (st : CacheState) (now : Nat) (d : List Record)
    (scrape : Except String (List Record)) (hc : st.cachedData = some d) :
    CACHE_DURATION = 10 * 60 * 1000 ∧
    ((now : Int) - (st.lastFetchTime : Int) < (CACHE_DURATION : Int) →
      dramasHandler st now scrape =
        ⟨{ statusCode := 200, status := "success", source := some "cache"
           cached_at := some st.lastFetchTime, total := some d.length
           data := some d }
         , st, false⟩) ∧
    ((CACHE_DURATION : Int) ≤ (now : Int) - (st.lastFetchTime : Int) →
      (dramasHandler st now scrape).ranPipeline = true) ∧
    (∀ fresh, (CACHE_DURATION : Int) ≤ (now : Int) - (st.lastFetchTime : Int) →
      scrape = Except.ok fresh →
      dramasHandler st now scrape =
        ⟨{ statusCode := 200, status := "success", source := some "live_scraping"
           total := some fresh.length, data := some fresh }
         , ⟨some fresh, now⟩, true⟩) := by
  refine ⟨rfl, ?_, ?_, ?_⟩
  · intro hfresh
    simp [dramasHandler, hc, if_pos hfresh]
  · intro hstale
    cases scrape with
    | ok fresh => simp [dramasHandler, dramasRefresh, hc, if_neg (not_lt.mpr hstale)]
    | error msg => simp [dramasHandler, dramasRefresh, hc, if_neg (not_lt.mpr hstale)]
  · intro fresh hstale hs
    subst hs
    simp [dramasHandler, dramasRefresh, hc, if_neg (not_lt.mpr hstale)]

/-- Witness for `dramas_freshness_gate`: a read 1 ms after the fetch serves
the cache; a read at TTL + 1 ms refreshes and overwrites the cache. -/
theorem dramas_freshness_gate_witness :
    dramasHandler ⟨some [recAlpha], 0⟩ 1 (Except.ok [recGamma]) =
      ⟨{ statusCode := 200, status := "success", source := some "cache"
         cached_at := some 0, total := some 1, data := some [recAlpha] }
       , ⟨some [recAlpha], 0⟩, false⟩ ∧
    dramasHandler ⟨some [recAlpha], 0⟩ 600001 (Except.ok [recGamma]) =
      ⟨{ statusCode := 200, status := "success", source := some "live_scraping"
         total := some 1, data := some [recGamma] }
       , ⟨some [recGamma], 600001⟩, true⟩ :=
  ⟨(dramas_freshness_gate ⟨some [recAlpha], 0⟩ 1 [recAlpha] _ rfl).2.1 (by decide),
   (dramas_freshness_gate ⟨some [recAlpha], 0⟩ 600001 [recAlpha] _ rfl).2.2.2
     [recGamma] (by decide) rfl⟩

/-- Claim C7: `/api/dramas` answers HTTP 500 exactly when the cache is empty
and the pipeline run fails, and in that case the body is status `error` with
the failure message. -/
theorem dramas_total_failure (st : CacheState) (now : Nat)
    (scrape : Except String (List Record)) :
    ((dramasHandler st now scrape).response.statusCode = 500 ↔
      st.cachedData = none ∧ ∃ msg, scrape = Except.error msg) ∧
    (∀ msg, st.cachedData = none → scrape = Except.error msg →
      (dramasHandler st now scrape).response =
        { statusCode := 500, status := "error", message := some msg }) := by
  constructor
  · cases hcd : st.cachedData with
    | none =>
      cases scrape with
      | ok fresh => simp [dramasHandler, dramasRefresh, hcd]
      | error msg => simp [dramasHandler, dramasRefresh, hcd]
    | some d =>
      by_cases hfresh : (now : Int) - (st.lastFetchTime : Int) < (CACHE_DURATION : Int)
      · simp [dramasHandler, hcd, if_pos hfresh]
      · cases scrape with
        | ok fresh => simp [dramasHandler, dramasRefresh, hcd, if_neg hfresh]
        | error msg => simp [dramasHandler, dramasRefresh, hcd, if_neg hfresh]
  · intro msg hcd hs
    subst hs
    simp [dramasHandler, dramasRefresh, hcd]

/-- Witness for `dramas_total_failure` at an empty cache and a failing
pipeline run. -/
theorem dramas_total_failure_witness :
    (dramasHandler ⟨none, 0⟩ 5 (Except.error "boom")).response =
      { statusCode := 500, status := "error", message := some "boom" } :=
  (dramas_total_failure ⟨none, 0⟩ 5 (Except.error "boom")).2 "boom" rfl rfl

/-- Claim C8: `/api/search` filters whatever is cached — however stale —
without running the pipeline and without touching the state; it runs the
pipeline (caching its result and the timestamp) only when the cache has
never been populated; the returned data is the records whose lowercased
title contains the lowercased query. -/
theorem search_cache_policy (st : CacheState) (now : Nat) (qs : String)
    (scrape : Except String (List Record)) :
    (∀ d, st.cachedData = some d →
      searchHandler st now (some qs) scrape =
        ⟨searchSuccess (jsToLower qs)
            (d.filter fun r => jsIncludes (jsToLower r.title) (jsToLower qs))
         , st, false⟩) ∧
    (∀ fresh, st.cachedData = none → scrape = Except.ok fresh →
      searchHandler st now (some qs) scrape =
        ⟨searchSuccess (jsToLower qs)
            (fresh.filter fun r => jsIncludes (jsToLower r.title) (jsToLower qs))
         , ⟨some fresh, now⟩, true⟩) := by
  have hq : (if qs = "" then "" else jsToLower qs) = jsToLower qs := by
    by_cases h : qs = ""
    · subst h
      rfl
    · rw [if_neg h]
  constructor
  · intro d hcd
    simp [searchHandler, hcd, hq]
  · intro fresh hcd hs
    subst hs
    simp [searchHandler, hcd, hq]

/-- Witness for `search_cache_policy`: a very stale one-record cache is
filtered without a pipeline run even though the pipeline would fail, and an
empty cache triggers a run whose result is cached and filtered. -/
theorem search_cache_policy_witness :
    searchHandler ⟨some [recAlpha], 0⟩ 999999999 (some "alp") (Except.error "down") =
      ⟨searchSuccess "alp" [recAlpha], ⟨some [recAlpha], 0⟩, false⟩ ∧
    searchHandler ⟨none, 0⟩ 7 (some "gam") (Except.ok [recGamma]) =
      ⟨searchSuccess "gam" [recGamma], ⟨some [recGamma], 7⟩, true⟩ :=
  ⟨(search_cache_policy ⟨some [recAlpha], 0⟩ 999999999 "alp" _).1 [recAlpha] rfl,
   (search_cache_policy ⟨none, 0⟩ 7 "gam" _).2 [recGamma] rfl rfl⟩

/-- Claim C10: with `q` absent or empty, `/api/search` treats the query as
the empty string, the empty-substring match accepts every record, and the
handler returns all cached records (running the pipeline first only when the
cache has never been populated). -/
theorem search_empty_query_returns_all (st : CacheState) (now : Nat)
    (q : Option String) (scrape : Except String (List Record))
    (hq : q = none ∨ q = some "") :
    (∀ d, st.cachedData = some d →
      searchHandler st now q scrape = ⟨searchSuccess "" d, st, false⟩) ∧
    (∀ fresh, st.cachedData = none → scrape = Except.ok fresh →
      searchHandler st now q scrape =
        ⟨searchSuccess "" fresh, ⟨some fresh, now⟩, true⟩) := by
  have hfilter : ∀ l : List Record,
      (l.filter fun r => jsIncludes (jsToLower r.title) "") = l := by
    intro l
    simp [jsIncludes_empty]
  rcases hq with rfl | rfl
  · constructor
    · intro d hcd
      simp [searchHandler, hcd, hfilter]
    · intro fresh hcd hs
      subst hs
      simp [searchHandler, hcd, hfilter]
  · constructor
    · intro d hcd
      simp [searchHandler, hcd, hfilter]
    · intro fresh hcd hs
      subst hs
      simp [searchHandler, hcd, hfilter]

/-- Witness for `search_empty_query_returns_all`: an absent query returns the
whole two-record cache untouched, and an empty query on a never-populated
cache returns everything the pipeline produced. -/
theorem search_empty_query_witness :
    searchHandler ⟨some [recAlpha, recGamma], 0⟩ 3 none (Except.error "down") =
      ⟨searchSuccess "" [recAlpha, recGamma], ⟨some [recAlpha, recGamma], 0⟩, false⟩ ∧
    searchHandler ⟨none, 0⟩ 3 (some "") (Except.ok [recValid]) =
      ⟨searchSuccess "" [recValid], ⟨some [recValid], 3⟩, true⟩ :=
  ⟨(search_empty_query_returns_all ⟨some [recAlpha, recGamma], 0⟩ 3 none _
      (Or.inl rfl)).1 [recAlpha, recGamma] rfl,
   (search_empty_query_returns_all ⟨none, 0⟩ 3 (some "") _
      (Or.inr rfl)).2 [recValid] rfl rfl⟩

end DracinApi
